import Mathlib

/-!
Verification of the VividTodo core (`app.js`): the `Todo` model and the
`TodoStore` object (CRUD, filtering, drag reordering, and localStorage
persistence).  The store's internal array `_todos` is modelled as a
`List Todo`; the single localStorage slot under the key `vividTodoItems`
is modelled by `StoredRaw`; each store method becomes a pure function
from the store state to the new store state.
-/

/-- The `Todo` class: `constructor(id, text, completed = false)`.  The ids the
store itself generates, the texts, and the completion flags are strings,
strings and booleans respectively, as documented on the constructor. -/
structure Todo where
  id : String
  text : String
  completed : Bool
deriving DecidableEq

/-- JavaScript/JSON values as they appear on the persistence path: the result
of `JSON.parse` and of property accesses on it (`item.id` and friends, which
yield `undefined` when the property is missing or the value is not an
object). -/
inductive JVal where
  | undefined : JVal
  | jnull : JVal
  | jbool : Bool → JVal
  | jnum : Int → JVal
  | jstr : String → JVal
  | jarr : List JVal → JVal
  | jobj : List (String × JVal) → JVal

/-- A todo as re-hydrated by `loadFromStorage`: `new Todo(item.id, item.text,
item.completed)` applied to an arbitrary parsed JSON value, so every field is
an arbitrary JavaScript value (possibly `undefined`). -/
structure RawTodo where
  id : JVal
  text : JVal
  completed : JVal

/-- The possible observations of `localStorage.getItem('vividTodoItems')`:
the key may be absent (`getItem` returns `null`), hold the empty string
(falsy, hence treated by the code like an absent key), hold a non-empty
string that `JSON.parse` rejects, or hold a non-empty string that parses to
the JSON value `v`. -/
inductive StoredRaw where
  | absent : StoredRaw
  | emptyStr : StoredRaw
  | invalid : StoredRaw
  | json : JVal → StoredRaw

/-- JavaScript property access `v[k]` as used by the re-hydration code:
objects yield the value of their last binding for `k` (`JSON.parse` keeps the
last duplicate key) or `undefined` when `k` is missing; primitives and arrays
yield `undefined` for these property names.  Access on `null`/`undefined`
throws, which `hydrateOne` accounts for separately. -/
def jget (v : JVal) (k : String) : JVal :=
  match v with
  | .jobj fs => ((fs.reverse).lookup k).getD .undefined
  | _ => .undefined

/-- One step of `data.map(item => new Todo(item.id, item.text,
item.completed))`: property access on `null` or `undefined` throws a
`TypeError` (propagated to the surrounding `catch`), every other value yields
a `Todo` whose fields are whatever the accesses produce. -/
def hydrateOne (v : JVal) : Option RawTodo :=
  match v with
  | .jnull => none
  | .undefined => none
  | v => some ⟨jget v "id", jget v "text", jget v "completed"⟩

/-- The whole `data.map(...)` call: the first throwing element aborts the map
and the `catch` discards any partial result. -/
def hydrateAll : List JVal → Option (List RawTodo)
  | [] => some []
  | v :: vs =>
    match hydrateOne v, hydrateAll vs with
    | some t, some ts => some (t :: ts)
    | _, _ => none

/-- `TodoStore.loadFromStorage` as a function of the raw storage slot to the
resulting `_todos` array: absent or empty raw values give `[]`; a
`JSON.parse` failure is caught and gives `[]`; a parsed value without a
callable `.map` (anything but an array) makes `data.map` throw a `TypeError`,
which the same `catch` turns into `[]`; an array is mapped element-wise, a
throwing element again giving `[]` through the `catch`. -/
def loadFromStorage : StoredRaw → List RawTodo
  | .absent => []
  | .emptyStr => []
  | .invalid => []
  | .json (.jarr vs) => (hydrateAll vs).getD []
  | .json _ => []

/-- The serialization of one todo performed by `saveToStorage`:
`{ id: t.id, text: t.text, completed: t.completed }`. -/
def encodeTodo (t : Todo) : JVal :=
  .jobj [("id", .jstr t.id), ("text", .jstr t.text), ("completed", .jbool t.completed)]

/-- The value written by `saveToStorage`: `JSON.stringify` of the mapped
array, represented by the JSON value it stringifies (the written string
parses back to exactly this value). -/
def serialize (todos : List Todo) : JVal :=
  .jarr (todos.map encodeTodo)

/-- The state owned by `TodoStore`: the in-memory `_todos` array and the
localStorage slot under `_storageKey`. -/
structure StoreState where
  items : List Todo
  storage : StoredRaw

/-- `TodoStore.saveToStorage`: overwrite the storage slot with the
serialization of the current `_todos`. -/
def saveToStorage (s : StoreState) : StoreState :=
  { s with storage := .json (serialize s.items) }

/-- The id generation in `addTodo`:
`Date.now().toString() + Math.random().toString(36).substr(2, 5)`, as a
function of the environment-supplied clock reading and random suffix. -/
def genId (now : Nat) (rand : String) : String :=
  toString now ++ rand

/-- `TodoStore.addTodo(text)`: build a todo with a freshly generated id and
`completed = false`, push it, save, and return it.  The clock reading and the
random suffix consumed by the id generator are passed explicitly. -/
def addTodo (s : StoreState) (text : String) (now : Nat) (rand : String) :
    StoreState × Todo :=
  let todo : Todo := ⟨genId now rand, text, false⟩
  (saveToStorage { s with items := s.items ++ [todo] }, todo)

/-- The in-place `todo.setText(newText)` on the first array element matching
the id, which is the element `find` returns. -/
def setTextFirst : List Todo → String → String → List Todo
  | [], _, _ => []
  | t :: ts, id, newText =>
    if t.id = id then { t with text := newText } :: ts
    else t :: setTextFirst ts id newText

/-- `TodoStore.editTodo(id, newText)`: if `find` locates a todo, replace its
text and save; otherwise do nothing (no save either). -/
def editTodo (s : StoreState) (id newText : String) : StoreState :=
  match s.items.find? (fun t => t.id == id) with
  | some _ => saveToStorage { s with items := setTextFirst s.items id newText }
  | none => s

/-- The in-place `todo.toggle()` on the first array element matching the
id. -/
def toggleFirst : List Todo → String → List Todo
  | [], _ => []
  | t :: ts, id =>
    if t.id = id then { t with completed := !t.completed } :: ts
    else t :: toggleFirst ts id

/-- `TodoStore.toggleTodo(id)`: if `find` locates a todo, flip its completion
flag and save; otherwise do nothing. -/
def toggleTodo (s : StoreState) (id : String) : StoreState :=
  match s.items.find? (fun t => t.id == id) with
  | some _ => saveToStorage { s with items := toggleFirst s.items id }
  | none => s

/-- `Array.prototype.findIndex`, with `none` playing the role of `-1`. -/
def findIndexOf (p : Todo → Bool) : List Todo → Option Nat
  | [] => none
  | t :: ts => if p t then some 0 else (findIndexOf p ts).map (· + 1)

/-- `TodoStore.deleteTodo(id)`: if `findIndex` succeeds, `splice(index, 1)`
and save; otherwise do nothing. -/
def deleteTodo (s : StoreState) (id : String) : StoreState :=
  match findIndexOf (fun t => t.id == id) s.items with
  | some i => saveToStorage { s with items := s.items.take i ++ s.items.drop (i + 1) }
  | none => s

/-- `TodoStore.clearCompleted()`: keep the incomplete todos and save
(unconditionally). -/
def clearCompleted (s : StoreState) : StoreState :=
  saveToStorage { s with items := s.items.filter (fun t => !t.completed) }

/-- `TodoStore.filterTodos(filter)`: `active` keeps the incomplete todos,
`completed` the complete ones, and `all` together with the `default` branch
returns `this._todos.slice()`, a copy in current order.  The function does
not touch the store state. -/
def filterTodos (s : StoreState) (filter : String) : List Todo :=
  if filter = "active" then s.items.filter (fun t => !t.completed)
  else if filter = "completed" then s.items.filter (fun t => t.completed)
  else s.items

/-- `TodoStore.reorderTodos(draggedId, targetId)`: return unchanged when the
two ids coincide or either `findIndex` fails; otherwise `splice` the dragged
item out, compute `insertIdx = draggedIdx < targetIdx ? targetIdx - 1 :
targetIdx`, `splice` it back in at `insertIdx`, and save.  `take`/`drop`
spell out exactly what the two `splice` calls do to the array. -/
def reorderTodos (s : StoreState) (draggedId targetId : String) : StoreState :=
  if draggedId = targetId then s
  else
    match findIndexOf (fun t => t.id == draggedId) s.items,
          findIndexOf (fun t => t.id == targetId) s.items with
    | some draggedIdx, some targetIdx =>
      match s.items.get? draggedIdx with
      | some draggedItem =>
        let rest := s.items.take draggedIdx ++ s.items.drop (draggedIdx + 1)
        let insertIdx := if draggedIdx < targetIdx then targetIdx - 1 else targetIdx
        saveToStorage
          { s with items := rest.take insertIdx ++ draggedItem :: rest.drop insertIdx }
      | none => s
    | _, _ => s

/-- The image of a well-typed todo under serialization followed by
re-hydration: every field comes back wrapped as the corresponding JavaScript
value. -/
def toRaw (t : Todo) : RawTodo :=
  ⟨.jstr t.id, .jstr t.text, .jbool t.completed⟩

/-- The write-through invariant of the spec: the storage slot holds exactly
the serialization of the current in-memory items. -/
def storageReflects (s : StoreState) : Prop :=
  s.storage = .json (serialize s.items)

/-- Whether a parsed JSON value is an array (the only values whose `.map`
call does not throw). -/
def isArr : JVal → Bool
  | .jarr _ => true
  | _ => false

/-- Whether the binding of `k` in an object field list is a JSON string. -/
def fieldIsStr (fs : List (String × JVal)) (k : String) : Bool :=
  match fs.lookup k with
  | some (.jstr _) => true
  | _ => false

/-- Whether the binding of `k` in an object field list is a JSON boolean. -/
def fieldIsBool (fs : List (String × JVal)) (k : String) : Bool :=
  match fs.lookup k with
  | some (.jbool _) => true
  | _ => false

/-- Spec-side definition, following the spec's words for the persistence
format: an entry is an object "with exactly three fields — id (string), text
(string), completed (boolean)".  Used to compare the documented read-side
validation with what `loadFromStorage` actually does. -/
def entryShaped : JVal → Bool
  | .jobj fs =>
    fs.length == 3 && fieldIsStr fs "id" && fieldIsStr fs "text" && fieldIsBool fs "completed"
  | _ => false

/-- Spec-side definition: a stored value that "parses as this shape" is an
array all of whose entries are well-shaped objects. -/
def valueShaped : JVal → Bool
  | .jarr vs => vs.all entryShaped
  | _ => false

/-- A fresh store before `loadFromStorage` has run: no items, no stored
value. -/
def store0 : StoreState :=
  ⟨[], .absent⟩

/-- A sequence of `addTodo` calls, each described by its text argument
together with the clock reading and random suffix its id generation
consumes. -/
def runAdds (s : StoreState) : List (String × Nat × String) → StoreState
  | [] => s
  | c :: cs => runAdds (addTodo s c.1 c.2.1 c.2.2).1 cs

lemma take_len_append {α : Type} (P Q : List α) : (P ++ Q).take P.length = P := by
  induction P with
  | nil => rfl
  | cons a P ih => simp [List.take_succ_cons, ih]

lemma drop_len_append {α : Type} (P Q : List α) : (P ++ Q).drop P.length = Q := by
  induction P with
  | nil => rfl
  | cons a P ih => simp [ih]

lemma get?_len_append {α : Type} (P : List α) (d : α) (Q : List α) :
    (P ++ d :: Q).get? P.length = some d := by
  induction P with
  | nil => rfl
  | cons a P ih => simpa using ih

lemma findIndexOf_eq_none (p : Todo → Bool) (l : List Todo)
    (h : ∀ x ∈ l, p x = false) : findIndexOf p l = none := by
  induction l with
  | nil => rfl
  | cons a l ih =>
    have ha := h a (by simp)
    simp [findIndexOf, ha, ih fun x hx => h x (by simp [hx])]

lemma findIndexOf_append (p : Todo → Bool) (P : List Todo) (d : Todo) (Q : List Todo)
    (hP : ∀ x ∈ P, p x = false) (hd : p d = true) :
    findIndexOf p (P ++ d :: Q) = some P.length := by
  induction P with
  | nil => simp [findIndexOf, hd]
  | cons a P ih =>
    have ha := hP a (by simp)
    simp [findIndexOf, ha, ih fun x hx => hP x (by simp [hx])]

lemma eraseP_append_first {α : Type} (p : α → Bool) (L : List α) (d : α) (Q : List α)
    (hL : ∀ x ∈ L, p x = false) (hd : p d = true) :
    (L ++ d :: Q).eraseP p = L ++ Q := by
  induction L with
  | nil => simp [List.eraseP_cons, hd]
  | cons a L ih =>
    have ha := hL a (by simp)
    simp [List.eraseP_cons, ha, ih fun x hx => hL x (by simp [hx])]

lemma nodup_decomp (P : List Todo) (d : Todo) (R : List Todo)
    (h : (((P ++ d :: R).map Todo.id)).Nodup) :
    (∀ x ∈ P, x.id ≠ d.id) ∧ (∀ x ∈ R, x.id ≠ d.id) ∧
      (((P ++ R).map Todo.id)).Nodup := by
  rw [List.map_append, List.map_cons, List.nodup_middle, List.nodup_cons] at h
  obtain ⟨hmem, hnd⟩ := h
  rw [← List.map_append] at hnd
  refine ⟨?_, ?_, hnd⟩
  · intro x hx hxe
    exact hmem (by rw [List.mem_append]; exact Or.inl (List.mem_map.mpr ⟨x, hx, hxe⟩))
  · intro x hx hxe
    exact hmem (by rw [List.mem_append]; exact Or.inr (List.mem_map.mpr ⟨x, hx, hxe⟩))

lemma reorderTodos_found (s : StoreState) (dId tId : String) (di ti : Nat) (d : Todo)
    (hne : dId ≠ tId)
    (hfd : findIndexOf (fun x => x.id == dId) s.items = some di)
    (hft : findIndexOf (fun x => x.id == tId) s.items = some ti)
    (hget : s.items.get? di = some d) :
    (reorderTodos s dId tId).items =
      (s.items.take di ++ s.items.drop (di + 1)).take (if di < ti then ti - 1 else ti) ++
        d :: (s.items.take di ++ s.items.drop (di + 1)).drop (if di < ti then ti - 1 else ti) := by
  unfold reorderTodos
  rw [if_neg hne, hfd, hft]
  dsimp only
  rw [hget]
  dsimp only [saveToStorage]

lemma reorder_forward (s : StoreState) (P Q1 Q2 : List Todo) (d t : Todo)
    (hs : s.items = P ++ d :: (Q1 ++ t :: Q2))
    (hPd : ∀ x ∈ P, x.id ≠ d.id)
    (hPt : ∀ x ∈ P, x.id ≠ t.id)
    (hdt : d.id ≠ t.id)
    (hQ1t : ∀ x ∈ Q1, x.id ≠ t.id) :
    (reorderTodos s d.id t.id).items = (P ++ Q1) ++ d :: t :: Q2 := by
  have hlen1 : (P ++ d :: Q1).length = P.length + (Q1.length + 1) := by
    simp [List.length_append]
  have hlen2 : (P ++ [d]).length = P.length + 1 := by
    simp
  have hfd : findIndexOf (fun x => x.id == d.id) s.items = some P.length := by
    rw [hs]
    exact findIndexOf_append _ P d _ (fun x hx => by simp [hPd x hx]) (by simp)
  have hft : findIndexOf (fun x => x.id == t.id) s.items =
      some (P.length + (Q1.length + 1)) := by
    rw [hs, show P ++ d :: (Q1 ++ t :: Q2) = (P ++ d :: Q1) ++ t :: Q2 by simp, ← hlen1]
    exact findIndexOf_append (fun x => x.id == t.id) (P ++ d :: Q1) t Q2
      (fun x hx => by
        rcases List.mem_append.mp hx with h1 | h2
        · simp [hPt x h1]
        · rcases List.mem_cons.mp h2 with rfl | h3
          · simp
            exact hdt
          · simp [hQ1t x h3])
      (by simp)
  have hget : s.items.get? P.length = some d := by
    rw [hs]; exact get?_len_append P d _
  have htake : s.items.take P.length = P := by
    rw [hs]; exact take_len_append P _
  have hdrop : s.items.drop (P.length + 1) = Q1 ++ t :: Q2 := by
    rw [hs, show P ++ d :: (Q1 ++ t :: Q2) = (P ++ [d]) ++ (Q1 ++ t :: Q2) by simp, ← hlen2]
    exact drop_len_append (P ++ [d]) (Q1 ++ t :: Q2)
  rw [reorderTodos_found s d.id t.id P.length (P.length + (Q1.length + 1)) d hdt hfd hft hget,
    htake, hdrop, if_pos (by omega)]
  have hidx : P.length + (Q1.length + 1) - 1 = (P ++ Q1).length := by
    simp [List.length_append]
  rw [show P ++ (Q1 ++ t :: Q2) = (P ++ Q1) ++ t :: Q2 by simp, hidx,
    take_len_append (P ++ Q1) (t :: Q2), drop_len_append (P ++ Q1) (t :: Q2)]

lemma reorder_backward (s : StoreState) (P1 P2 Q : List Todo) (d t : Todo)
    (hs : s.items = P1 ++ t :: (P2 ++ d :: Q))
    (hP1t : ∀ x ∈ P1, x.id ≠ t.id)
    (hP1d : ∀ x ∈ P1, x.id ≠ d.id)
    (hdt : d.id ≠ t.id)
    (hP2d : ∀ x ∈ P2, x.id ≠ d.id) :
    (reorderTodos s d.id t.id).items = P1 ++ d :: t :: (P2 ++ Q) := by
  have hlen1 : (P1 ++ t :: P2).length = P1.length + (P2.length + 1) := by
    simp [List.length_append]
  have hlen2 : ((P1 ++ t :: P2) ++ [d]).length = P1.length + (P2.length + 1) + 1 := by
    rw [List.length_append, hlen1, List.length_singleton]
  have hfd : findIndexOf (fun x => x.id == d.id) s.items =
      some (P1.length + (P2.length + 1)) := by
    rw [hs, show P1 ++ t :: (P2 ++ d :: Q) = (P1 ++ t :: P2) ++ d :: Q by simp, ← hlen1]
    exact findIndexOf_append (fun x => x.id == d.id) (P1 ++ t :: P2) d Q
      (fun x hx => by
        rcases List.mem_append.mp hx with h1 | h2
        · simp [hP1d x h1]
        · rcases List.mem_cons.mp h2 with rfl | h3
          · simp
            exact fun hh => hdt hh.symm
          · simp [hP2d x h3])
      (by simp)
  have hft : findIndexOf (fun x => x.id == t.id) s.items = some P1.length := by
    rw [hs]
    exact findIndexOf_append _ P1 t _ (fun x hx => by simp [hP1t x hx]) (by simp)
  have hget : s.items.get? (P1.length + (P2.length + 1)) = some d := by
    rw [hs, show P1 ++ t :: (P2 ++ d :: Q) = (P1 ++ t :: P2) ++ d :: Q by simp, ← hlen1]
    exact get?_len_append (P1 ++ t :: P2) d Q
  have htake : s.items.take (P1.length + (P2.length + 1)) = P1 ++ t :: P2 := by
    rw [hs, show P1 ++ t :: (P2 ++ d :: Q) = (P1 ++ t :: P2) ++ d :: Q by simp, ← hlen1]
    exact take_len_append (P1 ++ t :: P2) (d :: Q)
  have hdrop : s.items.drop (P1.length + (P2.length + 1) + 1) = Q := by
    rw [hs, show P1 ++ t :: (P2 ++ d :: Q) = ((P1 ++ t :: P2) ++ [d]) ++ Q by simp, ← hlen2]
    exact drop_len_append ((P1 ++ t :: P2) ++ [d]) Q
  rw [reorderTodos_found s d.id t.id (P1.length + (P2.length + 1)) P1.length d hdt hfd hft hget,
    htake, hdrop, if_neg (by omega)]
  rw [show (P1 ++ t :: P2) ++ Q = P1 ++ t :: (P2 ++ Q) by simp,
    take_len_append P1 (t :: (P2 ++ Q)), drop_len_append P1 (t :: (P2 ++ Q))]

/-- Claim C1: for every store and every pair of distinct ids both present in
`items` (under the store invariant that ids are unique), `reorderTodos` moves
the dragged task so that it ends up immediately before the target task, and
the relative order of all other tasks is unchanged: the result is the
sequence with the dragged task removed (`eraseP`), with the dragged task
re-inserted directly in front of the target task. -/
theorem reorder_moves_dragged_before_target (s : StoreState) (d t : Todo)
    (hnd : (s.items.map Todo.id).Nodup)
    (hd : d ∈ s.items) (ht : t ∈ s.items) (hne : d.id ≠ t.id) :
    ∃ A B, s.items.eraseP (fun x => x.id == d.id) = A ++ t :: B ∧
      (reorderTodos s d.id t.id).items = A ++ d :: t :: B := by
  obtain ⟨P, Q, hPQ⟩ := List.append_of_mem hd
  have hndPQ := hnd
  rw [hPQ] at hndPQ
  obtain ⟨hPd, hQd, _⟩ := nodup_decomp P d Q hndPQ
  have ht2 : t ∈ P ++ d :: Q := hPQ ▸ ht
  rcases List.mem_append.mp ht2 with htP | htdQ
  · -- the target sits strictly before the dragged item
    obtain ⟨P1, P2, hP⟩ := List.append_of_mem htP
    have hitems : s.items = P1 ++ t :: (P2 ++ d :: Q) := by
      rw [hPQ, hP]; simp
    have hnd1 : ((P1 ++ t :: (P2 ++ d :: Q)).map Todo.id).Nodup := by
      rw [← hitems]; exact hnd
    obtain ⟨hP1t, _, _⟩ := nodup_decomp P1 t (P2 ++ d :: Q) hnd1
    have hP1d : ∀ x ∈ P1, x.id ≠ d.id := fun x hx => hPd x (by simp [hP, hx])
    have hP2d : ∀ x ∈ P2, x.id ≠ d.id := fun x hx => hPd x (by simp [hP, hx])
    refine ⟨P1, P2 ++ Q, ?_, ?_⟩
    · have he : ((P1 ++ t :: P2) ++ d :: Q).eraseP (fun x => x.id == d.id) =
          (P1 ++ t :: P2) ++ Q :=
        eraseP_append_first _ (P1 ++ t :: P2) d Q
          (fun x hx => by
            rcases List.mem_append.mp hx with h1 | h2
            · simp [hP1d x h1]
            · rcases List.mem_cons.mp h2 with rfl | h3
              · simp
                exact fun hh => hne hh.symm
              · simp [hP2d x h3])
          (by simp)
      rw [hPQ, hP, show (P1 ++ t :: P2) ++ d :: Q = ((P1 ++ t :: P2) ++ d :: Q : List Todo)
        from rfl, he]
      simp
    · rw [reorder_backward s P1 P2 Q d t hitems hP1t hP1d hne hP2d]
  · rcases List.mem_cons.mp htdQ with rfl | htQ
    · exact absurd rfl hne
    · -- the target sits strictly after the dragged item
      obtain ⟨Q1, Q2, hQ⟩ := List.append_of_mem htQ
      have hitems : s.items = P ++ d :: (Q1 ++ t :: Q2) := by rw [hPQ, hQ]
      have hnd2 : (((P ++ d :: Q1) ++ t :: Q2).map Todo.id).Nodup := by
        rw [show (P ++ d :: Q1) ++ t :: Q2 = P ++ d :: (Q1 ++ t :: Q2) by simp, ← hitems]
        exact hnd
      obtain ⟨hall, _, _⟩ := nodup_decomp (P ++ d :: Q1) t Q2 hnd2
      have hPt : ∀ x ∈ P, x.id ≠ t.id := fun x hx => hall x (by simp [hx])
      have hQ1t : ∀ x ∈ Q1, x.id ≠ t.id := fun x hx => hall x (by simp [hx])
      refine ⟨P ++ Q1, Q2, ?_, ?_⟩
      · have he : (P ++ d :: (Q1 ++ t :: Q2)).eraseP (fun x => x.id == d.id) =
            P ++ (Q1 ++ t :: Q2) :=
          eraseP_append_first _ P d (Q1 ++ t :: Q2)
            (fun x hx => by simp [hPd x hx]) (by simp)
        rw [hitems, he]
        simp
      · rw [reorder_forward s P Q1 Q2 d t hitems hPd hPt hne hQ1t]

/-- Demonstration fixtures: three todos with distinct ids and the store
holding them with a storage slot that reflects them. -/
def aT : Todo := ⟨"a", "alpha", false⟩

def bT : Todo := ⟨"b", "beta", false⟩

def cT : Todo := ⟨"c", "gamma", true⟩

def demoStore : StoreState := ⟨[aT, bT, cT], .json (serialize [aT, bT, cT])⟩

/-- Concrete instantiation of the C1 theorem: dragging the first todo onto
the third one in a three-element store. -/
theorem reorder_moves_dragged_before_target_witness :
    ∃ A B, demoStore.items.eraseP (fun x => x.id == aT.id) = A ++ cT :: B ∧
      (reorderTodos demoStore aT.id cT.id).items = A ++ aT :: cT :: B :=
  reorder_moves_dragged_before_target demoStore aT cT (by decide) (by decide)
    (by decide) (by decide)

/-- Claim C10: when the dragged task sits immediately before the target task
(ids unique in the store), `reorderTodos` leaves the items unchanged by value
and order. -/
theorem reorder_onto_successor_noop (s : StoreState) (P Q : List Todo) (d t : Todo)
    (hs : s.items = P ++ d :: t :: Q)
    (hnd : (s.items.map Todo.id).Nodup) :
    (reorderTodos s d.id t.id).items = s.items := by
  have hnd1 := hnd
  rw [hs] at hnd1
  obtain ⟨hPd, _, _⟩ := nodup_decomp P d (t :: Q) hnd1
  have hnd2 : (((P ++ [d]) ++ t :: Q).map Todo.id).Nodup := by
    rw [show (P ++ [d]) ++ t :: Q = P ++ d :: t :: Q by simp]
    exact hnd1
  obtain ⟨hPdt, _, _⟩ := nodup_decomp (P ++ [d]) t Q hnd2
  have hdt : d.id ≠ t.id := hPdt d (by simp)
  have hPt : ∀ x ∈ P, x.id ≠ t.id := fun x hx => hPdt x (by simp [hx])
  have h := reorder_forward s P [] Q d t hs hPd hPt hdt (by simp)
  rw [h, hs]
  simp

/-- Concrete instantiation of the C10 theorem: dragging the first todo onto
its immediate successor in a three-element store is a no-op on the items. -/
theorem reorder_onto_successor_noop_witness :
    (reorderTodos demoStore aT.id bT.id).items = demoStore.items :=
  reorder_onto_successor_noop demoStore [] [cT] aT bT rfl (by decide)

/-- The concrete scenario of the spec: start empty, add "buy milk", then
"walk dog", then toggle the dog todo.  The clock readings and random suffixes
consumed by the two id generations are fixed so the run is fully concrete. -/
def milkId : String := genId 0 "m"

/-- The id generated for the "walk dog" todo in the concrete scenario. -/
def dogId : String := genId 0 "d"

/-- The store reached by the concrete scenario right before the reorder
step. -/
def scenarioStore : StoreState :=
  toggleTodo (addTodo (addTodo store0 "buy milk" 0 "m").1 "walk dog" 0 "d").1 dogId

/-- Claim C2 counterexample: in the scenario store, whose order is
[milk, dog], `reorderTodos(milkId, dogId)` does not produce the order
[dog, milk] claimed by the spec's walkthrough. -/
theorem scenario_reorder_not_dog_milk :
    (reorderTodos scenarioStore milkId dogId).items.map Todo.text ≠
      ["walk dog", "buy milk"] := by decide

/-- Claim C2 (amended): in the scenario store, `reorderTodos(milkId, dogId)`
leaves the order [milk, dog] unchanged — milk is already immediately before
dog, which is exactly where the reorder rule puts it. -/
theorem scenario_reorder_keeps_milk_dog :
    (reorderTodos scenarioStore milkId dogId).items = scenarioStore.items ∧
    scenarioStore.items.map Todo.text = ["buy milk", "walk dog"] := by decide

/-- Claim C3: `filterTodos` with mode `active` returns exactly the items with
`completed = false` as a subsequence of `items` (hence in original relative
order), mode `completed` returns exactly the items with `completed = true`,
and mode `all` — like any other mode string — returns the items themselves in
current order; the store state is never touched since `filterTodos` only
reads it. -/
theorem filter_correct (s : StoreState) (mode : String)
    (h1 : mode ≠ "active") (h2 : mode ≠ "completed") :
    (filterTodos s "active").Sublist s.items ∧
    filterTodos s "active" = s.items.filter (fun t => decide (t.completed = false)) ∧
    (filterTodos s "completed").Sublist s.items ∧
    filterTodos s "completed" = s.items.filter (fun t => decide (t.completed = true)) ∧
    filterTodos s "all" = s.items ∧
    filterTodos s mode = s.items := by
  have hact : filterTodos s "active" = s.items.filter (fun t => !t.completed) := rfl
  have hcom : filterTodos s "completed" = s.items.filter (fun t => t.completed) := rfl
  refine ⟨?_, ?_, ?_, ?_, rfl, ?_⟩
  · rw [hact]; exact List.filter_sublist s.items
  · rw [hact]
    exact List.filter_congr fun t _ => by cases hc : t.completed <;> simp [hc]
  · rw [hcom]; exact List.filter_sublist s.items
  · rw [hcom]
    exact List.filter_congr fun t _ => by cases hc : t.completed <;> simp [hc]
  · unfold filterTodos
    rw [if_neg h1, if_neg h2]

/-- Concrete instantiation of the C3 theorem at a three-element store and an
unknown mode string. -/
theorem filter_correct_witness :
    (filterTodos demoStore "active").Sublist demoStore.items ∧
    filterTodos demoStore "active" =
      demoStore.items.filter (fun t => decide (t.completed = false)) ∧
    (filterTodos demoStore "completed").Sublist demoStore.items ∧
    filterTodos demoStore "completed" =
      demoStore.items.filter (fun t => decide (t.completed = true)) ∧
    filterTodos demoStore "all" = demoStore.items ∧
    filterTodos demoStore "whatever" = demoStore.items :=
  filter_correct demoStore "whatever" (by decide) (by decide)

/-- Claim C7: operations given an id that no item carries — `editTodo`,
`toggleTodo`, `deleteTodo`, and `reorderTodos` with the missing id on either
side — return the store completely unchanged (items and storage), and so does
`reorderTodos x x` for any id; all of them are total, so no error is
reported. -/
theorem missing_id_ops_noop (s : StoreState) (id newText x y : String)
    (habs : ∀ t ∈ s.items, t.id ≠ id) :
    editTodo s id newText = s ∧ toggleTodo s id = s ∧ deleteTodo s id = s ∧
    reorderTodos s id y = s ∧ reorderTodos s y id = s ∧ reorderTodos s x x = s := by
  have hfind : s.items.find? (fun t => t.id == id) = none :=
    List.find?_eq_none.mpr fun t ht => by simp [habs t ht]
  have hidx : findIndexOf (fun t => t.id == id) s.items = none :=
    findIndexOf_eq_none _ _ fun t ht => by simp [habs t ht]
  refine ⟨?_, ?_, ?_, ?_, ?_, ?_⟩
  · unfold editTodo
    rw [hfind]
  · unfold toggleTodo
    rw [hfind]
  · unfold deleteTodo
    rw [hidx]
  · unfold reorderTodos
    by_cases he : id = y
    · rw [if_pos he]
    · rw [if_neg he, hidx]
  · unfold reorderTodos
    by_cases he : y = id
    · rw [if_pos he]
    · rw [if_neg he, hidx]
      cases findIndexOf (fun t => t.id == y) s.items <;> rfl
  · unfold reorderTodos
    rw [if_pos rfl]

/-- Concrete instantiation of the C7 theorem: the id "zz" matches no item of
the demonstration store. -/
theorem missing_id_ops_noop_witness :
    editTodo demoStore "zz" "nt" = demoStore ∧ toggleTodo demoStore "zz" = demoStore ∧
    deleteTodo demoStore "zz" = demoStore ∧ reorderTodos demoStore "zz" "a" = demoStore ∧
    reorderTodos demoStore "a" "zz" = demoStore ∧
    reorderTodos demoStore "q" "q" = demoStore :=
  missing_id_ops_noop demoStore "zz" "nt" "q" "a" (by decide)

/-- Claim C8 counterexample: `addTodo` applied to the empty text appends a
task whose text is empty — the store's add performs no non-emptiness
check. -/
theorem add_empty_text_not_rejected :
    (addTodo store0 "" 0 "abcde").2.text = "" ∧
    (addTodo store0 "" 0 "abcde").1.items.map Todo.text = [""] := by decide

/-- Claim C8 (amended): `addTodo` appends a task whose text is exactly the
argument, with no validation — the appended text is non-empty exactly when
the caller passes a non-empty string, and the spec assigns that check to the
view layer. -/
theorem add_appends_text_verbatim (s : StoreState) (text : String) (now : Nat)
    (rand : String) :
    (addTodo s text now rand).2 = ⟨genId now rand, text, false⟩ ∧
    (addTodo s text now rand).1.items = s.items ++ [⟨genId now rand, text, false⟩] :=
  ⟨rfl, rfl⟩

lemma runAdds_items (calls : List (String × Nat × String)) (s : StoreState) :
    (runAdds s calls).items =
      s.items ++ calls.map (fun c => (⟨genId c.2.1 c.2.2, c.1, false⟩ : Todo)) := by
  induction calls generalizing s with
  | nil => simp [runAdds]
  | cons c cs ih => simp [runAdds, ih, addTodo, saveToStorage]

/-- Claim C9 counterexample: two `addTodo` calls whose clock readings and
random suffixes happen to coincide — the same millisecond and the same
`Math.random` suffix — produce two items with the same id, so ids are not
unconditionally pairwise distinct. -/
theorem add_ids_can_collide :
    ¬ (((runAdds store0 [("a", 0, "x"), ("b", 0, "x")]).items.map Todo.id).Nodup) := by
  decide

/-- Claim C9 (amended): ids of the tasks produced by any sequence of
`addTodo` calls on a fresh store are pairwise distinct provided the generated
timestamp-plus-suffix strings of those calls are pairwise distinct — which
the generation scheme makes overwhelmingly probable but cannot guarantee. -/
theorem add_ids_distinct_of_gen_distinct (calls : List (String × Nat × String))
    (h : (calls.map (fun c => genId c.2.1 c.2.2)).Nodup) :
    ((runAdds store0 calls).items.map Todo.id).Nodup := by
  rw [runAdds_items]
  simpa [store0, List.map_map, Function.comp] using h

/-- Concrete instantiation of the C9 theorem: two adds in different
milliseconds yield distinct ids. -/
theorem add_ids_distinct_witness :
    ((runAdds store0 [("buy milk", 5, "aaaaa"), ("walk dog", 6, "bbbbb")]).items.map
      Todo.id).Nodup :=
  add_ids_distinct_of_gen_distinct [("buy milk", 5, "aaaaa"), ("walk dog", 6, "bbbbb")]
    (by decide)

/-- Claim C4: the write-through invariant — if the storage slot holds exactly
the serialization of the in-memory items, then it still does after any of the
mutating operations completes: the operations that change `items` finish with
`saveToStorage`, and the defensive no-op paths change neither `items` nor the
slot. -/
theorem mutating_ops_write_through (s : StoreState) (h : storageReflects s)
    (text id newText dId tId : String) (now : Nat) (rand : String) :
    storageReflects (addTodo s text now rand).1 ∧
    storageReflects (editTodo s id newText) ∧
    storageReflects (toggleTodo s id) ∧
    storageReflects (deleteTodo s id) ∧
    storageReflects (clearCompleted s) ∧
    storageReflects (reorderTodos s dId tId) := by
  have hsave : ∀ u : StoreState, storageReflects (saveToStorage u) := fun u => rfl
  refine ⟨hsave _, ?_, ?_, ?_, hsave _, ?_⟩
  · unfold editTodo
    cases s.items.find? (fun t => t.id == id) with
    | some t => exact hsave _
    | none => exact h
  · unfold toggleTodo
    cases s.items.find? (fun t => t.id == id) with
    | some t => exact hsave _
    | none => exact h
  · unfold deleteTodo
    cases findIndexOf (fun t => t.id == id) s.items with
    | some i => exact hsave _
    | none => exact h
  · unfold reorderTodos
    by_cases he : dId = tId
    · rw [if_pos he]; exact h
    · rw [if_neg he]
      cases findIndexOf (fun t => t.id == dId) s.items with
      | none => exact h
      | some di =>
        cases findIndexOf (fun t => t.id == tId) s.items with
        | none => exact h
        | some ti =>
          dsimp only
          cases s.items.get? di with
          | some d => exact hsave _
          | none => exact h

/-- Concrete instantiation of the C4 theorem at the demonstration store,
whose slot reflects its items. -/
theorem mutating_ops_write_through_witness :
    storageReflects (addTodo demoStore "x" 1 "r").1 ∧
    storageReflects (editTodo demoStore "a" "nt") ∧
    storageReflects (toggleTodo demoStore "a") ∧
    storageReflects (deleteTodo demoStore "a") ∧
    storageReflects (clearCompleted demoStore) ∧
    storageReflects (reorderTodos demoStore "a" "c") :=
  mutating_ops_write_through demoStore rfl "x" "a" "nt" "a" "c" 1 "r"

lemma hydrateOne_encode (t : Todo) : hydrateOne (encodeTodo t) = some (toRaw t) := rfl

lemma hydrateAll_encode (todos : List Todo) :
    hydrateAll (todos.map encodeTodo) = some (todos.map toRaw) := by
  induction todos with
  | nil => rfl
  | cons t ts ih => simp [hydrateAll, hydrateOne_encode, ih]

/-- Claim C5: `saveToStorage` followed by a fresh `loadFromStorage` of the
written slot yields a sequence of re-hydrated todos that is, element for
element and in the same order, exactly the pre-persist items: each loaded
todo carries the same id, text and completed flag (as JavaScript values) as
its counterpart. -/
theorem persist_then_load_roundtrip (s : StoreState) :
    loadFromStorage (saveToStorage s).storage = s.items.map toRaw := by
  show (hydrateAll (s.items.map encodeTodo)).getD [] = s.items.map toRaw
  rw [hydrateAll_encode]
  rfl

/-- Claim C6 counterexample: the stored value `[{}]` parses as an array but
not as an array of objects of the documented shape (its single entry has no
fields at all), yet `loadFromStorage` yields one re-hydrated todo — with all
three fields `undefined` — rather than the empty sequence: the read path
never validates the shape of array entries. -/
theorem load_does_not_validate_shape :
    valueShaped (.jarr [.jobj []]) = false ∧
    loadFromStorage (.json (.jarr [.jobj []])) = [⟨.undefined, .undefined, .undefined⟩] ∧
    ([⟨.undefined, .undefined, .undefined⟩] : List RawTodo) ≠ [] :=
  ⟨rfl, rfl, List.cons_ne_nil _ _⟩

lemma hydrateOne_of_good (x : JVal) (hx : x ≠ JVal.jnull ∧ x ≠ JVal.undefined) :
    hydrateOne x = some ⟨jget x "id", jget x "text", jget x "completed"⟩ := by
  cases x with
  | jnull => exact absurd rfl hx.1
  | undefined => exact absurd rfl hx.2
  | jbool b => rfl
  | jnum n => rfl
  | jstr s => rfl
  | jarr l => rfl
  | jobj fs => rfl

lemma hydrateAll_of_good (vs : List JVal)
    (h : ∀ x ∈ vs, x ≠ JVal.jnull ∧ x ≠ JVal.undefined) :
    hydrateAll vs =
      some (vs.map (fun x => ⟨jget x "id", jget x "text", jget x "completed"⟩)) := by
  induction vs with
  | nil => rfl
  | cons x xs ih =>
    have hx := hydrateOne_of_good x (h x (by simp))
    have hxs := ih fun y hy => h y (by simp [hy])
    simp [hydrateAll, hx, hxs]

lemma hydrateAll_of_bad (vs : List JVal)
    (h : ∃ x ∈ vs, hydrateOne x = none) : hydrateAll vs = none := by
  induction vs with
  | nil => simp at h
  | cons x xs ih =>
    rcases h with ⟨y, hy, hyn⟩
    rcases List.mem_cons.mp hy with rfl | hyx
    · simp [hydrateAll, hyn]
    · have hxs := ih ⟨y, hyx, hyn⟩
      cases hx : hydrateOne x <;> simp [hydrateAll, hx, hxs]

/-- Claim C6 (amended): `loadFromStorage` yields the empty sequence when the
key is absent, when the stored value is the empty string, when it is not
valid JSON, when the parsed value is not an array, and when some array entry
— at any position — is `null` (or `undefined`), whose property access throws
into the catch-all; but when the value parses as an array of non-null entries
it yields exactly one todo per entry regardless of the entries' shape, each
field read by property access, so missing or mistyped fields are absorbed as
`undefined` instead of being rejected.  No error escapes: the function is
total. -/
theorem load_recovers_empty (v bad : JVal) (vs ws : List JVal)
    (hv : isArr v = false)
    (hbad : bad = JVal.jnull ∨ bad = JVal.undefined)
    (hmem : bad ∈ ws)
    (hvs : ∀ x ∈ vs, x ≠ JVal.jnull ∧ x ≠ JVal.undefined) :
    loadFromStorage .absent = [] ∧
    loadFromStorage .emptyStr = [] ∧
    loadFromStorage .invalid = [] ∧
    loadFromStorage (.json v) = [] ∧
    loadFromStorage (.json (.jarr ws)) = [] ∧
    loadFromStorage (.json (.jarr vs)) =
      vs.map (fun x => ⟨jget x "id", jget x "text", jget x "completed"⟩) := by
  refine ⟨rfl, rfl, rfl, ?_, ?_, ?_⟩
  · cases v with
    | jarr l => exact absurd hv (by simp [isArr])
    | undefined => rfl
    | jnull => rfl
    | jbool b => rfl
    | jnum n => rfl
    | jstr s => rfl
    | jobj fs => rfl
  · have hnone : hydrateAll ws = none :=
      hydrateAll_of_bad ws ⟨bad, hmem, by rcases hbad with rfl | rfl <;> rfl⟩
    show (hydrateAll ws).getD [] = []
    rw [hnone]
    rfl
  · show (hydrateAll vs).getD [] = _
    rw [hydrateAll_of_good vs hvs]
    rfl

/-- Concrete instantiation of the C6 theorem: a non-array JSON value, an
array whose second entry is `null`, and an array with a single (malformed,
but non-null) object entry. -/
theorem load_recovers_empty_witness :
    loadFromStorage .absent = [] ∧
    loadFromStorage .emptyStr = [] ∧
    loadFromStorage .invalid = [] ∧
    loadFromStorage (.json (.jnum 5)) = [] ∧
    loadFromStorage (.json (.jarr [JVal.jobj [], JVal.jnull])) = [] ∧
    loadFromStorage (.json (.jarr [JVal.jobj []])) =
      [JVal.jobj []].map (fun x => ⟨jget x "id", jget x "text", jget x "completed"⟩) :=
  load_recovers_empty (.jnum 5) JVal.jnull [JVal.jobj []] [JVal.jobj [], JVal.jnull] rfl
    (Or.inl rfl)
    (List.mem_cons_of_mem _ (List.mem_cons_self _ _))
    (fun x hx => by
      rcases List.mem_singleton.mp hx with rfl
      exact ⟨fun h => JVal.noConfusion h, fun h => JVal.noConfusion h⟩)
